import Mathlib

/-!
Verification of the plotting dispatch/grouping/helper logic of the
`scipp-plot-test` repository (files `src/plot/config.py`,
`src/plot/dispatch.py`, `src/plot/plot.py`, `src/plot/tools.py`).

Python values are shallowly embedded: numeric array contents are `ℚ`
(the code performs only exact arithmetic `0.5 * (a + b)`, subtraction
and comparisons on them), Python dicts are association lists
(assignment keeps the position of an existing key and appends a new
one, as CPython dicts do), and fallible code returns `Except PyError`.
The plotting backends `plot_1d` / `plot_2d` and the `SciPlot`
container are not part of the sources; they are modelled from the
spec as opaque-but-inspectable figure values (see `Figure`).
-/

namespace ScippPlot

/-- Errors the modelled Python code can raise. -/
inductive PyError
  | runtimeError (msg : String)
  | nameError (missing : String)
  | attributeError (attr : String)
  | indexError (msg : String)
deriving DecidableEq, Repr

/-- A matplotlib style value as it appears in the config lists and in the
per-series parameter resolution of `plot`: Python ints, strings and the
float `1.5` (the only float in the config, embedded exactly as `ℚ`). -/
inductive StyleV
  | int (n : Int)
  | str (s : String)
  | rat (q : ℚ)
deriving DecidableEq, Repr

/-- The colorbar parameter defaults `config["params"]` of `config.py`,
and the values `parse_params` stores into its working dict.  Values the
source computes with matplotlib / numpy-masked float arithmetic
(`valid.min()`, `LogNorm(...)`, `LinearSegmentedColormap.from_list`) are
kept symbolic: a constructor records which source expression produced
the value and from which inputs. -/
inductive PVal
  | pnone
  | pbool (b : Bool)
  | pstr (s : String)
  | pnum (q : ℚ)
  | pmaskedMin (log : Bool) (arr : List ℚ)
  | pmaskedMax (log : Bool) (arr : List ℚ)
  | pminOf (a b : PVal)
  | pmaxOf (a b : PVal)
  | pnormLog (vmin vmax : PVal)
  | pnormLin (vmin vmax : PVal)
  | pcmapOf (c : PVal)
deriving DecidableEq, Repr

/-- A Python dict with string keys, as an association list. -/
abbrev PDict := List (String × PVal)

/-- The names under which `plot`/`get_line_param` index the four line
style default lists of the config. -/
inductive LineParamName
  | color
  | marker
  | linestyle
  | linewidth
deriving DecidableEq, Repr

/-- `config.py`: the global config dict (all of its entries). -/
structure PlotConfig where
  color : List StyleV
  params : PDict
  height : Nat
  width : Nat
  dpi : Nat
  aspect : String
  marker : List StyleV
  linewidth : List StyleV
  linestyle : List StyleV

/-- The `config` dict of `config.py`, field by field. -/
def config : PlotConfig :=
  PlotConfig.mk
    [.str "#1f77b4", .str "#ff7f0e", .str "#2ca02c", .str "#d62728",
     .str "#9467bd", .str "#8c564b", .str "#e377c2", .str "#7f7f7f",
     .str "#bcbd22", .str "#17becf"]
    [("cmap", .pstr "viridis"), ("log", .pbool false), ("vmin", .pnone),
     ("vmax", .pnone), ("color", .pnone), ("show", .pbool true),
     ("cbar", .pbool true), ("norm", .pnone)]
    533 800 96 "auto"
    [.str "o", .str "^", .str "s", .str "d", .str "*", .str "1",
     .str "P", .str "h", .str "X", .str "v", .str "<", .str ">",
     .str "2", .str "3", .str "4", .str "8", .str "p", .str "H",
     .str "+", .str "x", .str "D"]
    [.rat (3 / 2)]
    [.str "none"]

/-- `config[name]` for the four line-parameter names. -/
def lineDefaults : LineParamName → List StyleV
  | .color => config.color
  | .marker => config.marker
  | .linestyle => config.linestyle
  | .linewidth => config.linewidth

/-- `tools.get_line_param`: `param = config[name]; return
param[index % len(param)]`.  The index is a Python int (it can be
negative: `plot` resolves with `line_count = -1` for a leading
non-1D entry), and Python's `%` on a positive modulus is `Int.emod`
made nonnegative, which `Int.emod` already is. -/
def get_line_param (name : LineParamName) (index : Int) : StyleV :=
  let param := lineDefaults name
  param.getD (index % (param.length : Int)).toNat (.str "")

/-- `tools.edges_to_centers`: `0.5 * (x[1:] + x[:-1])` elementwise;
entry `i` of the result is `0.5 * (x[i+1] + x[i])`. -/
def edges_to_centers : List ℚ → List ℚ
  | a :: b :: t => (1 / 2 : ℚ) * (b + a) :: edges_to_centers (b :: t)
  | _ => []

/-- `tools.centers_to_edges`.  The `len(x) < 2` branch reads `x[0]`,
so the source raises `IndexError` on an empty array; the `[]` case
below is unreachable junk for the (nonempty) inputs of the claims. -/
def centers_to_edges : List ℚ → List ℚ
  | [] => []
  | [a] =>
    let dx := (1 / 2 : ℚ) * |a|
    let dx := if dx = 0 then (1 / 2 : ℚ) else dx
    [a - dx, a + dx]
  | a :: b :: t =>
    let x := a :: b :: t
    let e := edges_to_centers x
    (2 * a - e.headD 0) :: (e ++ [2 * x.getLastD 0 - e.getLastD 0])

/-- The half-width used by the singleton branch of `centers_to_edges`:
`dx = 0.5 * abs(x[0])`, replaced by `0.5` when it is zero. -/
def dxVal (a : ℚ) : ℚ :=
  if (1 / 2 : ℚ) * |a| = 0 then (1 / 2 : ℚ) else (1 / 2 : ℚ) * |a|

/-- The evenly spaced list `a, a + d, …, a + (n-1)·d` (an arithmetic
progression), used to state for which inputs the center/edge
conversions round-trip. -/
def arithListQ (a d : ℚ) : Nat → List ℚ
  | 0 => []
  | n + 1 => a :: arithListQ (a + d) d n

/-! ## The data model seen by `plot.py` and `dispatch.py`

An inventory entry `var` is a DataArray-like dict; the grouping loop of
`plot` reads exactly `var["data"]["dims"]` and `var["data"]["unit"]`
from it and otherwise passes the entry through unchanged, so the
embedded entry carries just that inner variable record. -/

/-- The inner variable dict `var["data"]`: its dimension labels
(`dims`, already strings here — `plot` only ever applies `str` to
them) and its unit string. -/
structure VarData where
  dims : List String
  unit : String
deriving DecidableEq, Repr

/-- A DataArray-like inventory entry, reduced to the fields the
grouping loop reads. -/
structure DataEntry where
  data : VarData
deriving DecidableEq, Repr

/-- The `axes` argument of `plot`: `None`, a list of dimension labels,
or a dict mapping dimension names to labels. -/
inductive AxesSpec
  | alist (ax : List String)
  | adict (d : List (String × String))
deriving DecidableEq, Repr

/-- One of the four user style arguments of `plot` (`color`, `marker`,
`linestyle`, `linewidth`): `None`, a list, a dict keyed by entry name,
or any other single value. -/
inductive ParamSpec
  | noneP
  | listP (l : List StyleV)
  | dictP (d : List (String × StyleV))
  | valP (v : StyleV)
deriving DecidableEq, Repr

/-- The four style arguments of one `plot` call. -/
structure LineParams where
  color : ParamSpec
  marker : ParamSpec
  linestyle : ParamSpec
  linewidth : ParamSpec
deriving DecidableEq, Repr

/-- Selects one of the four style arguments by name. -/
def LineParams.get (lp : LineParams) : LineParamName → ParamSpec
  | .color => lp.color
  | .marker => lp.marker
  | .linestyle => lp.linestyle
  | .linewidth => lp.linewidth

/-- The resolved `mpl_line_params` of one group: for each of the four
parameter names, a dict from entry name to resolved style value. -/
structure StyleMaps where
  mapColor : List (String × StyleV)
  mapMarker : List (String × StyleV)
  mapLinestyle : List (String × StyleV)
  mapLinewidth : List (String × StyleV)
deriving DecidableEq, Repr

/-- Selects one of the four per-name maps. -/
def StyleMaps.get (m : StyleMaps) : LineParamName → List (String × StyleV)
  | .color => m.mapColor
  | .marker => m.mapMarker
  | .linestyle => m.mapLinestyle
  | .linewidth => m.mapLinewidth

/-- One value of `tobeplotted` in `plot`: the `dict(ndims=…,
data_arrays={}, axes=ax, mpl_line_params={})` created when a key is
first seen, subsequently filled in. -/
structure Group where
  ndims : Nat
  data_arrays : List (String × DataEntry)
  axes : Option AxesSpec
  mpl : StyleMaps
deriving DecidableEq, Repr

/-- The loop state of the grouping loop of `plot`: the running
`line_count` (a Python int starting at `-1`) and `tobeplotted`. -/
structure PState where
  lc : Int
  groups : List (String × Group)
deriving DecidableEq, Repr

/-! ## Dict primitives (CPython semantics on association lists) -/

/-- Dict lookup `d[k]` / `k in d`, as an option. -/
def alGet {α : Type} (l : List (String × α)) (k : String) : Option α :=
  match l with
  | [] => none
  | kv :: t => if kv.1 = k then some kv.2 else alGet t k

/-- Dict assignment `d[k] = v`: replaces in place when the key exists,
appends otherwise (CPython dicts keep insertion order). -/
def alSet {α : Type} (l : List (String × α)) (k : String) (v : α) :
    List (String × α) :=
  match l with
  | [] => [(k, v)]
  | kv :: t => if kv.1 = k then (k, v) :: t else kv :: alSet t k v

/-- Python list indexing `l[i]` with an int index: negative indices
count from the end; out of range is `IndexError` (`none`). -/
def pyIndex {α : Type} (l : List α) (i : Int) : Option α :=
  let j := if i < 0 then i + l.length else i
  if 0 ≤ j then l.get? j.toNat else none

/-! ## The grouping loop of `plot.py` -/

/-- The trailing `isinstance(mpl_line_params[n], int)` step of the
style resolution in `plot`: an int is replaced by
`get_line_param(name=n, index=it)`. -/
def intResolve (n : LineParamName) (v : StyleV) : StyleV :=
  match v with
  | .int i => get_line_param n i
  | v => v

/-- The per-entry style resolution of `plot` for one parameter `n`
with user argument `p`, entry name `name`, at the current
`line_count` `lc`:
`None` becomes `lc`; a list is indexed with `lc` (Python indexing, so
`IndexError` when out of range); a dict yields its entry for `name`
when present and `lc` otherwise; any other value passes through; an
int result is then resolved through `get_line_param`. -/
def resolveParam (n : LineParamName) (p : ParamSpec) (name : String)
    (lc : Int) : Except PyError StyleV :=
  match p with
  | .noneP => .ok (intResolve n (.int lc))
  | .listP l =>
    match pyIndex l lc with
    | some v => .ok (intResolve n v)
    | none => .error (.indexError "list index out of range")
  | .dictP d =>
    match alGet d name with
    | some v => .ok (intResolve n v)
    | none => .ok (intResolve n (.int lc))
  | .valP v => .ok (intResolve n v)

/-- One iteration of the grouping loop of `plot` over
`sorted(inventory.items())`, for the entry `(name, var)`: skip
zero-dimensional entries; build the group key (1D — or forced-1D by
`projection` — entries are keyed by joined dimension names or custom
axes plus the unit, incrementing `line_count`; other entries are keyed
by their name); resolve the four style parameters; create the group on
first use of the key and insert the entry and its resolved style
values.  `axes` given as a dict raises `AttributeError`: the source
evaluates `var.dims` there on a plain dict. -/
def processEntry (proj : Option String) (axes : Option AxesSpec)
    (lp : LineParams) (st : PState) (nv : String × DataEntry) :
    Except PyError PState :=
  let name := nv.1
  let var := nv.2
  let ndims := var.data.dims.length
  if 0 < ndims then
    let keyRes : Except PyError (String × Int) :=
      if ndims = 1 ∨ proj = some "1d" ∨ proj = some "1D" then
        match axes with
        | some (.adict _) => .error (.attributeError "dims")
        | some (.alist ax) =>
          .ok (String.intercalate "." ax ++ "." ++ var.data.unit, st.lc + 1)
        | none =>
          .ok (String.intercalate "." var.data.dims ++ "." ++ var.data.unit,
               st.lc + 1)
      else
        .ok (name, st.lc)
    match keyRes with
    | .error e => .error e
    | .ok (key, lc) =>
      match resolveParam .color lp.color name lc with
      | .error e => .error e
      | .ok vc =>
        match resolveParam .marker lp.marker name lc with
        | .error e => .error e
        | .ok vm =>
          match resolveParam .linestyle lp.linestyle name lc with
          | .error e => .error e
          | .ok vls =>
            match resolveParam .linewidth lp.linewidth name lc with
            | .error e => .error e
            | .ok vlw =>
              let g0 :=
                match alGet st.groups key with
                | some g => g
                | none => Group.mk ndims [] axes (StyleMaps.mk [] [] [] [])
              let g1 := Group.mk g0.ndims (alSet g0.data_arrays name var)
                g0.axes
                (StyleMaps.mk (alSet g0.mpl.mapColor name vc)
                  (alSet g0.mpl.mapMarker name vm)
                  (alSet g0.mpl.mapLinestyle name vls)
                  (alSet g0.mpl.mapLinewidth name vlw))
              .ok (PState.mk lc (alSet st.groups key g1))
  else
    .ok st

/-- The grouping loop of `plot` over a list of entries. -/
def processEntries (proj : Option String) (axes : Option AxesSpec)
    (lp : LineParams) (st : PState) :
    List (String × DataEntry) → Except PyError PState
  | [] => .ok st
  | nv :: rest =>
    match processEntry proj axes lp st nv with
    | .ok st2 => processEntries proj axes lp st2 rest
    | .error e => .error e

/-- Stable insertion of an entry into a name-sorted list (the entry
goes before the first element whose name is not smaller). -/
def insertSorted (nv : String × DataEntry) :
    List (String × DataEntry) → List (String × DataEntry)
  | [] => [nv]
  | h :: t => if h.1 < nv.1 then h :: insertSorted nv t else nv :: h :: t

/-- `sorted(inventory.items())`: Python's stable sort of the entries
by name (names are unique dict keys, so the tuple comparison never
goes past the name), modelled by insertion sort. -/
def sortByName : List (String × DataEntry) → List (String × DataEntry)
  | [] => []
  | h :: t => insertSorted h (sortByName t)

/-- The grouping phase of `plot`: sort the inventory by name and run
the grouping loop from `line_count = -1` and empty `tobeplotted`. -/
def plotGroups (proj : Option String) (axes : Option AxesSpec)
    (lp : LineParams) (inv : List (String × DataEntry)) :
    Except PyError (List (String × Group)) :=
  match processEntries proj axes lp (PState.mk (-1) []) (sortByName inv) with
  | .ok st => .ok st.groups
  | .error e => .error e

/-! ## `dispatch.py` -/

/-- Modelled from the spec: the 1D and 2D plotting routines
`plot_1d` / `plot_2d` (referenced by `dispatch.py` but not among the
sources) produce in-memory rendered figure objects; the model keeps
the data arrays they were called on, and for `plot_1d` the
`mpl_line_params` it alone receives. -/
inductive Figure
  | oneD (data_arrays : List (String × DataEntry)) (mpl : Option StyleMaps)
  | twoD (data_arrays : List (String × DataEntry))
deriving DecidableEq, Repr

/-- The data arrays a rendered figure was produced from. -/
def Figure.arrays : Figure → List (String × DataEntry)
  | .oneD d _ => d
  | .twoD d => d

/-- Python `str.lower()` on one character: the source only compares
against ASCII projection strings, so the ASCII lowercase map suffices. -/
def pyCharLower (c : Char) : Char :=
  if 'A' ≤ c ∧ c ≤ 'Z' then Char.ofNat (c.toNat + 32) else c

/-- Python `str.lower()`, as a per-character map. -/
def pyLower (s : String) : String :=
  String.mk (s.data.map pyCharLower)

/-- The projection-defaulting step of `dispatch`: a `None` projection
becomes `"{ndim}d"` for `ndim < 3` and `"2d"` otherwise. -/
def projDefault (ndim : Nat) (projection : Option String) : String :=
  match projection with
  | none => if ndim < 3 then toString ndim ++ "d" else "2d"
  | some p => p

/-- The routing tail of `dispatch` (after the `ndim` and `bins`
steps): lowercase the (defaulted) projection and branch.  `"1d"` and
`"2d"` call the respective plotting routine; `"3d"` evaluates the name
`plot_3d`, whose import is commented out in `dispatch.py`, so it
raises `NameError`; anything else raises `RuntimeError`. -/
def dispatchRoute (data_arrays : List (String × DataEntry)) (ndim : Nat)
    (projection : Option String) (mpl_line_params : Option StyleMaps) :
    Except PyError Figure :=
  let projL := pyLower (projDefault ndim projection)
  if projL = "1d" then .ok (.oneD data_arrays mpl_line_params)
  else if projL = "2d" then .ok (.twoD data_arrays)
  else if projL = "3d" then .error (.nameError "plot_3d")
  else .error (.runtimeError
    ("Wrong projection type. Expected either 2d or 3d, got " ++ projL ++ "."))

/-- `dispatch.dispatch`.  `ndim < 1` raises `RuntimeError`
immediately.  A non-`None` `bins` enters the histogramming loop, whose
body calls `histogram_events_data` — a name whose import is commented
out in `dispatch.py` — so it raises `NameError` as soon as both
`data_arrays` and `bins` are nonempty (with either empty, the loop
body never runs and `data_arrays` is rebuilt unchanged).  Then the
projection is defaulted, lowercased and routed.  The `name` argument
is accepted and, as in the source, never read. -/
def dispatch (data_arrays : List (String × DataEntry)) (ndim : Nat)
    (name : Option String) (bins : Option (List (String × Nat)))
    (projection : Option String) (mpl_line_params : Option StyleMaps) :
    Except PyError Figure :=
  if ndim < 1 then
    .error (.runtimeError
      ("Invalid number of dimensions for plotting: " ++ toString ndim))
  else
    match bins with
    | some bs =>
      if data_arrays ≠ [] ∧ bs ≠ [] then .error (.nameError "histogram_events_data")
      else dispatchRoute data_arrays ndim projection mpl_line_params
    | none => dispatchRoute data_arrays ndim projection mpl_line_params

/-! ## `plot.py`: the whole call -/

/-- The final loop of `plot`: each group of `tobeplotted` is
dispatched and the result stored in the `SciPlot` output under the
group key (the `SciPlot` container itself is not among the sources;
per the spec it is an in-memory collection keyed by the grouping
used, modelled as an association list). -/
def dispatchGroups (proj : Option String)
    (bins : Option (List (String × Nat))) :
    List (String × Group) → Except PyError (List (String × Figure))
  | [] => .ok []
  | kg :: rest =>
    match dispatch kg.2.data_arrays kg.2.ndims (some kg.1) bins proj
        (some kg.2.mpl) with
    | .ok fig =>
      match dispatchGroups proj bins rest with
      | .ok out => .ok ((kg.1, fig) :: out)
      | .error e => .error e
    | .error e => .error e

/-- `plot.plot` on a Dataset-like dict (the DataArray-like and
Variable-like input forms wrap the input into a one-entry inventory
and continue identically): group the entries, then dispatch every
group.  Keyword arguments forwarded blindly to the backend
(`**kwargs`) are not modelled. -/
def plot (proj : Option String) (axes : Option AxesSpec) (lp : LineParams)
    (bins : Option (List (String × Nat)))
    (inv : List (String × DataEntry)) :
    Except PyError (List (String × Figure)) :=
  match plotGroups proj axes lp inv with
  | .ok groups => dispatchGroups proj bins groups
  | .error e => .error e

/-! ## Derived notions used in the claim statements -/

/-- Whether the grouping loop treats an entry as a 1D line series
(its own dimensionality is 1, or the projection forces 1D). -/
def oneDish (proj : Option String) (e : DataEntry) : Bool :=
  e.data.dims.length = 1 || proj = some "1d" || proj = some "1D"

/-- The group key the loop computes for entry `(name, e)` (for the
axes-as-dict form the loop raises before computing a key; the value
returned here for that form is irrelevant junk). -/
def groupKey (proj : Option String) (axes : Option AxesSpec)
    (name : String) (e : DataEntry) : String :=
  if oneDish proj e then
    match axes with
    | some (.alist ax) => String.intercalate "." ax ++ "." ++ e.data.unit
    | some (.adict _) => ""
    | none => String.intercalate "." e.data.dims ++ "." ++ e.data.unit
  else name

/-- How many entries of `l` bump `line_count`: the nonzero-dimensional
entries the loop treats as 1D line series. -/
def lcCount (proj : Option String) (l : List (String × DataEntry)) : Nat :=
  l.countP (fun nv => !nv.2.data.dims.isEmpty && oneDish proj nv.2)

/-- The prefix of `l` up to and including the first entry named
`name`. -/
def takeThrough (name : String) :
    List (String × DataEntry) → List (String × DataEntry)
  | [] => []
  | nv :: t => if nv.1 = name then [nv] else nv :: takeThrough name t

/-- The value `line_count` has when the entry named `name` of the
(processing-ordered) list `l` gets its style parameters resolved:
the number of 1D-ish entries seen up to and including it, minus one. -/
def lcAt (proj : Option String) (l : List (String × DataEntry))
    (name : String) : Int :=
  (lcCount proj (takeThrough name l) : Int) - 1

/-- The invariant maintained by the grouping loop of `plot` after
processing the prefix `pre` of the (sorted) inventory, used to prove
the grouping and style-resolution claims: the running `line_count`
equals the number of 1D-ish entries seen minus one; every name stored
in a group was processed; and every processed entry with at least one
dimension sits (with its resolved style values, resolved at the
`line_count` it was processed under) exactly in the group keyed by
`groupKey`. -/
def PlotInv (proj : Option String) (axes : Option AxesSpec) (lp : LineParams)
    (pre : List (String × DataEntry)) (st : PState) : Prop :=
  st.lc = (lcCount proj pre : Int) - 1
  ∧ (∀ kg ∈ st.groups, ∀ nm : String,
      (∃ e, alGet kg.2.data_arrays nm = some e) → nm ∈ pre.map Prod.fst)
  ∧ (∀ nv ∈ pre, nv.2.data.dims ≠ [] →
      (∃ g, alGet st.groups (groupKey proj axes nv.1 nv.2) = some g
        ∧ alGet g.data_arrays nv.1 = some nv.2
        ∧ ∀ n : LineParamName, ∃ v,
            resolveParam n (lp.get n) nv.1 (lcAt proj pre nv.1) = .ok v
            ∧ alGet (g.mpl.get n) nv.1 = some v)
      ∧ (∀ kg ∈ st.groups,
          (∃ e2, alGet kg.2.data_arrays nv.1 = some e2) →
          kg.1 = groupKey proj axes nv.1 nv.2))

/-! ## `tools.value_to_string`

The number-to-text primitives the source applies are CPython float
formatting: `str(val)` (the shortest round-trip float repr),
`"{:.{p}e}".format` and `"{:.{p}f}".format`.  Those are operations on
binary floating point representations and are taken as parameters
(`plainStr`, `sciFmt`, `fixFmt`) of the embedding; the branch and
threshold structure of `value_to_string` — what the claim is about —
is modelled exactly. -/

/-- The `val` argument of `value_to_string`: a float (exact value as
`ℚ`) or any non-float value, carried as its `str()` text. -/
inductive PyScalar
  | pfloat (q : ℚ)
  | nonfloat (s : String)
deriving DecidableEq, Repr

/-- `tools.value_to_string`: non-floats and zero are rendered with
plain `str`; a nonzero float with `abs(val) >= 10^(precision+1)` or
`abs(val) <= 10^(-precision-1)` in scientific notation with
`precision` digits; otherwise the plain representation, unless it is
longer than `precision + 2` characters (plus one for a leading minus
sign), in which case fixed-point with `precision` digits. -/
def value_to_string (plainStr : ℚ → String) (sciFmt fixFmt : ℚ → Nat → String)
    (val : PyScalar) (precision : Nat) : String :=
  match val with
  | .nonfloat s => s
  | .pfloat q =>
    if q = 0 then plainStr q
    else if (10 : ℚ) ^ (precision + 1) ≤ |q| ∨
        |q| ≤ (10 : ℚ) ^ (-(precision : Int) - 1) then
      sciFmt q precision
    else
      let text := plainStr q
      if precision + 2 + (if text.take 1 = "-" then 1 else 0) < text.length then
        fixFmt q precision
      else text

/-! ## `tools.parse_params` (with `_find_min_max`)

`parse_params` starts from `parsed = dict(config["params"])` and then
mutates `parsed` only.  To make "never mutates the global config" a
real statement, Python dict objects live in a small heap: a `Store` is
a list of dicts addressed by index, `config["params"]` is the cell the
caller passes, and `dict(...)` allocates a fresh cell holding a copy. -/

/-- A heap of Python dict objects, addressed by allocation index. -/
abbrev Store := List PDict

/-- `d[k] = v` on the dict object at heap address `r`. -/
def writeKey (st : Store) (r : Nat) (k : String) (v : PVal) : Store :=
  st.set r (alSet (st.getD r []) k v)

/-- `d[k]` on the dict object at heap address `r` (the source only
reads keys that are present; a missing key reads as `None`). -/
def readKey (st : Store) (r : Nat) (k : String) : PVal :=
  (alGet (st.getD r []) k).getD .pnone

/-- Python truthiness of the embedded values, for `if parsed["log"]`
(symbolic computed values are nonzero objects, hence truthy). -/
def pyTruthy : PVal → Bool
  | .pnone => false
  | .pbool b => b
  | .pstr s => !s.isEmpty
  | .pnum q => q != 0
  | _ => true

/-- The `params` argument of `parse_params`: `None`, a bool (turned
into `{"show": params}`), or a dict. -/
inductive PParamArg
  | pabool (b : Bool)
  | padict (d : PDict)
deriving DecidableEq, Repr

/-- The `variable` argument of `parse_params`: the source reads only
`variable["values"]`. -/
structure PyVar where
  values : List ℚ
deriving DecidableEq, Repr

/-- `tools._find_min_max(array, params)`: fills `vmin` / `vmax` of the
dict at address `r` when they are `None`, from the (log-) masked
array minimum / maximum (kept symbolic). -/
def find_min_max (arr : List ℚ) (st : Store) (r : Nat) : Store :=
  let logB := pyTruthy (readKey st r "log")
  let st1 :=
    if readKey st r "vmin" = .pnone then
      writeKey st r "vmin" (.pmaskedMin logB arr)
    else st
  if readKey st1 r "vmax" = .pnone then
    writeKey st1 r "vmax" (.pmaskedMax logB arr)
  else st1

/-- The `defaults` overlay of `parse_params`: `for key, val in
defaults.items(): parsed[key] = val` on the dict at `parsed`. -/
def pp_apply_defaults (parsed : Nat) (defaults : Option PDict)
    (st : Store) : Store :=
  match defaults with
  | none => st
  | some d => d.foldl (fun s kv => writeKey s parsed kv.1 kv.2) st

/-- The `globs` overlay of `parse_params`: global parameters equal to
`None` are skipped so they do not overwrite the defaults. -/
def pp_apply_globs (parsed : Nat) (globs : Option PDict) (st : Store) :
    Store :=
  match globs with
  | none => st
  | some g => g.foldl
      (fun s kv => if kv.2 = .pnone then s else writeKey s parsed kv.1 kv.2) st

/-- The `params` overlay of `parse_params`: a bool argument means
`{"show": params}`; a dict is written entry by entry. -/
def pp_apply_params (parsed : Nat) (params : Option PParamArg) (st : Store) :
    Store :=
  match params with
  | none => st
  | some (.pabool b) => writeKey st parsed "show" (.pbool b)
  | some (.padict d) => d.foldl (fun s kv => writeKey s parsed kv.1 kv.2) st

/-- The `need_norm` block of `parse_params`: `_find_min_max` runs for
a supplied variable (on its `values`) and/or plain array, and
`need_norm` records whether either was supplied. -/
def pp_min_max (parsed : Nat) (variableArg : Option PyVar)
    (array : Option (List ℚ)) (st : Store) : Store × Bool :=
  let sn5 := match variableArg with
    | none => (st, false)
    | some v => (find_min_max v.values st parsed, true)
  match array with
  | none => sn5
  | some arr => (find_min_max arr sn5.1 parsed, true)

/-- The `if need_norm:` block of `parse_params`: clamp `vmin` / `vmax`
with `min_val` / `max_val` when given, then store the `LogNorm` /
`Normalize` object under `"norm"`. -/
def pp_norm (parsed : Nat) (min_val max_val : Option ℚ)
    (sn : Store × Bool) : Store :=
  if sn.2 then
    let s1 := match min_val with
      | none => sn.1
      | some mv => writeKey sn.1 parsed "vmin"
          (.pminOf (readKey sn.1 parsed "vmin") (.pnum mv))
    let s2 := match max_val with
      | none => s1
      | some mx => writeKey s1 parsed "vmax"
          (.pmaxOf (readKey s1 parsed "vmax") (.pnum mx))
    let norm := if pyTruthy (readKey s2 parsed "log")
      then PVal.pnormLog (readKey s2 parsed "vmin") (readKey s2 parsed "vmax")
      else PVal.pnormLin (readKey s2 parsed "vmin") (readKey s2 parsed "vmax")
    writeKey s2 parsed "norm" norm
  else sn.1

/-- The final block of `parse_params`: a non-`None` `color` becomes a
two-point `LinearSegmentedColormap` stored under `"cmap"`. -/
def pp_cmap (parsed : Nat) (st : Store) : Store :=
  if readKey st parsed "color" = .pnone then st
  else writeKey st parsed "cmap" (.pcmapOf (readKey st parsed "color"))

/-- `tools.parse_params`, block by block in source order: copy
`config["params"]` (the dict at `cfgRef`) into a freshly allocated
cell `parsed`; overlay `defaults`, the non-`None` entries of `globs`,
and `params`; run the `_find_min_max` / `need_norm` / `norm` blocks;
finally the `color`-to-`cmap` conversion.  Returns the heap and the
address of `parsed`. -/
def parse_params (st : Store) (cfgRef : Nat) (params : Option PParamArg)
    (defaults globs : Option PDict) (variableArg : Option PyVar)
    (array : Option (List ℚ)) (min_val max_val : Option ℚ) : Store × Nat :=
  let parsed := st.length
  let st1 := st ++ [st.getD cfgRef []]
  let st2 := pp_apply_defaults parsed defaults st1
  let st3 := pp_apply_globs parsed globs st2
  let st4 := pp_apply_params parsed params st3
  let sn6 := pp_min_max parsed variableArg array st4
  let st7 := pp_norm parsed min_val max_val sn6
  let st8 := pp_cmap parsed st7
  (st8, parsed)

/-! ## Helper lemmas -/

theorem emod_natCast_toNat (i L : Nat) :
    ((i : Int) % (L : Int)).toNat = i % L := by
  have h : ((i % L : Nat) : Int) = (i : Int) % (L : Int) := Int.natCast_mod i L
  rw [← h]
  exact Int.toNat_natCast _

theorem lineDefaults_length_pos (name : LineParamName) :
    0 < (lineDefaults name).length := by
  cases name <;> simp [lineDefaults, config]

theorem edges_to_centers_length :
    ∀ x : List ℚ, (edges_to_centers x).length = x.length - 1
  | [] => by simp [edges_to_centers]
  | [_] => by simp [edges_to_centers]
  | a :: b :: t => by
    have ih := edges_to_centers_length (b :: t)
    simp only [edges_to_centers, List.length_cons] at ih ⊢
    omega

theorem arithListQ_length : ∀ (n : Nat) (a d : ℚ), (arithListQ a d n).length = n
  | 0, _, _ => rfl
  | n + 1, a, d => by
    simp only [arithListQ, List.length_cons, arithListQ_length n]

theorem arithListQ_concat : ∀ (n : Nat) (a d : ℚ),
    arithListQ a d (n + 1) = arithListQ a d n ++ [a + n * d]
  | 0, a, d => by simp [arithListQ]
  | n + 1, a, d => by
    have ih := arithListQ_concat n (a + d) d
    show a :: arithListQ (a + d) d (n + 1) =
      (a :: arithListQ (a + d) d n) ++ [a + (n + 1 : Nat) * d]
    rw [ih, List.cons_append]
    have : a + d + (n : ℚ) * d = a + ((n + 1 : Nat) : ℚ) * d := by
      push_cast
      ring
    rw [this]

theorem arithListQ_getLastD (n : Nat) (a d : ℚ) :
    (arithListQ a d (n + 1)).getLastD 0 = a + n * d := by
  rw [arithListQ_concat, List.getLastD_concat]

theorem edges_to_centers_arith : ∀ (n : Nat) (a d : ℚ),
    edges_to_centers (arithListQ a d (n + 2)) = arithListQ (a + d / 2) d (n + 1)
  | 0, a, d => by
    show [(1 / 2 : ℚ) * (a + d + a)] = [a + d / 2]
    norm_num
    ring
  | n + 1, a, d => by
    have ih := edges_to_centers_arith n (a + d) d
    show (1 / 2 : ℚ) * (a + d + a) ::
        edges_to_centers (arithListQ (a + d) d (n + 2)) =
      (a + d / 2) :: arithListQ (a + d / 2 + d) d (n + 1)
    rw [ih]
    have h1 : (1 / 2 : ℚ) * (a + d + a) = a + d / 2 := by ring
    have h2 : a + d + d / 2 = a + d / 2 + d := by ring
    rw [h1, h2]

theorem centers_to_edges_arith (n : Nat) (a d : ℚ) :
    centers_to_edges (arithListQ a d (n + 2)) = arithListQ (a - d / 2) d (n + 3) := by
  have he := edges_to_centers_arith n a d
  show (2 * a - (edges_to_centers (arithListQ a d (n + 2))).headD 0) ::
      (edges_to_centers (arithListQ a d (n + 2)) ++
        [2 * (arithListQ a d (n + 2)).getLastD 0 -
          (edges_to_centers (arithListQ a d (n + 2))).getLastD 0])
    = arithListQ (a - d / 2) d (n + 3)
  rw [he]
  rw [show (arithListQ (a + d / 2) d (n + 1)).headD 0 = a + d / 2 from rfl]
  rw [arithListQ_getLastD (n + 1) a d, arithListQ_getLastD n (a + d / 2) d]
  show (2 * a - (a + d / 2)) :: (arithListQ (a + d / 2) d (n + 1) ++ _) =
    (a - d / 2) :: arithListQ (a - d / 2 + d) d (n + 2)
  rw [arithListQ_concat (n + 1) (a - d / 2 + d) d]
  have h1 : (2 * a - (a + d / 2)) = a - d / 2 := by ring
  have h2 : a - d / 2 + d = a + d / 2 := by ring
  have h3 : 2 * (a + ((n + 1 : Nat) : ℚ) * d) - (a + d / 2 + (n : ℚ) * d) =
      a + d / 2 + ((n + 1 : Nat) : ℚ) * d := by
    push_cast
    ring
  rw [h1, h2, h3]

theorem centers_to_edges_singleton (a : ℚ) :
    centers_to_edges [a] = [a - dxVal a, a + dxVal a] := rfl

theorem dxVal_ne_zero (a : ℚ) : dxVal a ≠ 0 := by
  unfold dxVal
  split
  · norm_num
  · assumption

/-! ## Claim theorems -/

/-- C5: `get_line_param` selects the i-th default by round-robin: for
every line-parameter name present in the config and every natural
index `i`, it returns element `i % len(config[name])` of the default
list; it is periodic with period the length of that list; and it never
fails with an out-of-range index (the result is always an element of
the list). -/
theorem get_line_param_round_robin (name : LineParamName) (i : Nat) :
    get_line_param name i =
      (lineDefaults name).getD (i % (lineDefaults name).length) (.str "")
    ∧ get_line_param name ((i : Int) + (lineDefaults name).length) =
        get_line_param name i
    ∧ get_line_param name i ∈ lineDefaults name := by
  have h1 : get_line_param name i =
      (lineDefaults name).getD (i % (lineDefaults name).length) (.str "") := by
    show (lineDefaults name).getD
        (((i : Int) % ((lineDefaults name).length : Int)).toNat) (.str "") = _
    rw [emod_natCast_toNat]
  refine ⟨h1, ?_, ?_⟩
  · show (lineDefaults name).getD
        ((((i : Int) + ((lineDefaults name).length : Int)) %
          ((lineDefaults name).length : Int)).toNat) (.str "") =
      (lineDefaults name).getD
        (((i : Int) % ((lineDefaults name).length : Int)).toNat) (.str "")
    have h2 : (i : Int) + ((lineDefaults name).length : Int) =
        (i : Int) + ((lineDefaults name).length : Int) * 1 := by ring
    rw [h2, Int.add_mul_emod_self_left]
  · rw [h1]
    have hlt : i % (lineDefaults name).length < (lineDefaults name).length :=
      Nat.mod_lt _ (lineDefaults_length_pos name)
    rw [List.getD_eq_getElem _ _ hlt]
    apply List.getElem_mem

/-- C6, counterexample: the center/edge round-trip fails on the
3-element (unevenly spaced) array `[0, 0, 1]`, which the claim as
stated covers. -/
theorem center_edge_round_trip_cex :
    2 ≤ ([0, 0, 1] : List ℚ).length ∧
    edges_to_centers (centers_to_edges ([0, 0, 1] : List ℚ)) ≠
      ([0, 0, 1] : List ℚ) := by
  refine ⟨by norm_num, ?_⟩
  show ¬ (edges_to_centers
    ((2 * 0 - (edges_to_centers [(0 : ℚ), 0, 1]).headD 0) ::
      (edges_to_centers [(0 : ℚ), 0, 1] ++
        [2 * ([(0 : ℚ), 0, 1]).getLastD 0 -
          (edges_to_centers [(0 : ℚ), 0, 1]).getLastD 0])) = [0, 0, 1])
  norm_num [edges_to_centers]

/-- C6 (amended): the center/edge conversions round-trip on every
evenly spaced numeric array (an arithmetic progression) of at least 2
elements: `edges_to_centers (centers_to_edges x) = x`.  (On unevenly
spaced arrays of 3 or more elements the round-trip fails, see the
counterexample.) -/
theorem center_edge_round_trip (x : List ℚ) (hlen : 2 ≤ x.length)
    (heven : ∃ a d n, x = arithListQ a d n) :
    edges_to_centers (centers_to_edges x) = x := by
  obtain ⟨a, d, n, rfl⟩ := heven
  rw [arithListQ_length] at hlen
  obtain ⟨m, rfl⟩ : ∃ m, n = m + 2 := ⟨n - 2, by omega⟩
  rw [centers_to_edges_arith, show m + 3 = (m + 1) + 2 from rfl,
    edges_to_centers_arith]
  have h : a - d / 2 + d / 2 = a := by ring
  rw [h]

theorem center_edge_round_trip_witness :
    2 ≤ (arithListQ 0 1 3).length ∧
    edges_to_centers (centers_to_edges (arithListQ 0 1 3)) = arithListQ 0 1 3 :=
  ⟨by rw [arithListQ_length]; norm_num,
    center_edge_round_trip _ (by rw [arithListQ_length]; norm_num) ⟨0, 1, 3, rfl⟩⟩

/-- C10: for every nonempty array, `centers_to_edges` returns exactly
`len(x) + 1` edges; on a singleton `[a]` the two edges are
`a - dx, a + dx` with `dx = 0.5 * abs(a)`, falling back to `0.5`
when that is zero (see `dxVal`), so the two edges are distinct. -/
theorem centers_to_edges_spec (x : List ℚ) (hx : x ≠ []) :
    (centers_to_edges x).length = x.length + 1 ∧
    ∀ a, x = [a] →
      centers_to_edges x = [a - dxVal a, a + dxVal a] ∧
        a - dxVal a ≠ a + dxVal a := by
  have hdist : ∀ a : ℚ, a - dxVal a ≠ a + dxVal a := by
    intro a heq
    have : dxVal a = 0 := by linarith
    exact dxVal_ne_zero a this
  cases x with
  | nil => exact absurd rfl hx
  | cons a t =>
    cases t with
    | nil =>
      refine ⟨by rw [centers_to_edges_singleton]; rfl, ?_⟩
      intro a2 h
      obtain rfl : a = a2 := by injection h
      exact ⟨centers_to_edges_singleton a, hdist a⟩
    | cons b t2 =>
      constructor
      · show ((2 * a - (edges_to_centers (a :: b :: t2)).headD 0) ::
          (edges_to_centers (a :: b :: t2) ++
            [2 * (a :: b :: t2).getLastD 0 -
              (edges_to_centers (a :: b :: t2)).getLastD 0])).length =
          (a :: b :: t2).length + 1
        have := edges_to_centers_length (a :: b :: t2)
        simp only [List.length_cons, List.length_append, List.length_nil,
          List.length_singleton] at this ⊢
        omega
      · intro a2 h
        simp at h

theorem centers_to_edges_spec_witness :
    (centers_to_edges [(5 : ℚ)]).length = [(5 : ℚ)].length + 1 ∧
    centers_to_edges [(5 : ℚ)] = [5 - dxVal 5, 5 + dxVal 5] ∧
    5 - dxVal 5 ≠ 5 + dxVal 5 := by
  have h := centers_to_edges_spec [(5 : ℚ)] (by simp)
  exact ⟨h.1, (h.2 5 rfl).1, (h.2 5 rfl).2⟩

/-- C7: `value_to_string` obeys its formatting thresholds: a non-float
value is rendered with plain `str`, as is a float equal to zero; a
nonzero float is rendered in scientific notation with `precision`
digits exactly when `abs(val) ≥ 10^(p+1)` or `abs(val) ≤ 10^(-p-1)`;
in the remaining range the plain representation is used unless it is
longer than `p + 2` characters plus one for a leading minus sign, in
which case fixed-point with `p` digits is used.  (The formatting
primitives themselves are float-repr operations, taken as
parameters.) -/
theorem value_to_string_thresholds (plainStr : ℚ → String)
    (sciFmt fixFmt : ℚ → Nat → String) (q : ℚ) (s : String) (p : Nat) :
    value_to_string plainStr sciFmt fixFmt (.nonfloat s) p = s
    ∧ value_to_string plainStr sciFmt fixFmt (.pfloat 0) p = plainStr 0
    ∧ (q ≠ 0 →
        ((10 : ℚ) ^ (p + 1) ≤ |q| ∨ |q| ≤ (10 : ℚ) ^ (-(p : Int) - 1) →
          value_to_string plainStr sciFmt fixFmt (.pfloat q) p = sciFmt q p)
        ∧ (¬ ((10 : ℚ) ^ (p + 1) ≤ |q| ∨ |q| ≤ (10 : ℚ) ^ (-(p : Int) - 1)) →
            (p + 2 + (if (plainStr q).take 1 = "-" then 1 else 0) <
                (plainStr q).length →
              value_to_string plainStr sciFmt fixFmt (.pfloat q) p = fixFmt q p)
            ∧ (¬ (p + 2 + (if (plainStr q).take 1 = "-" then 1 else 0) <
                (plainStr q).length) →
              value_to_string plainStr sciFmt fixFmt (.pfloat q) p =
                plainStr q))) := by
  refine ⟨rfl, by simp [value_to_string], ?_⟩
  intro hq
  constructor
  · intro hth
    simp only [value_to_string, if_neg hq, if_pos hth]
  · intro hth
    refine ⟨?_, ?_⟩
    · intro hlen
      simp only [value_to_string, if_neg hq, if_neg hth, if_pos hlen]
    · intro hlen
      simp only [value_to_string, if_neg hq, if_neg hth, if_neg hlen]

theorem value_to_string_thresholds_witness :
    value_to_string (fun _ => "20000.0") (fun _ _ => "2.000e+04")
      (fun _ _ => "20000.000") (.pfloat 20000) 3 = "2.000e+04" :=
  ((value_to_string_thresholds (fun _ => "20000.0") (fun _ _ => "2.000e+04")
      (fun _ _ => "20000.000") 20000 "" 3).2.2 (by norm_num)).1
    (Or.inl (by norm_num))

theorem writeKey_getElem?_ne {st : Store} {r j : Nat} {k : String} {v : PVal}
    (h : r ≠ j) : (writeKey st r k v)[j]? = st[j]? := by
  unfold writeKey
  exact List.getElem?_set_ne h

theorem foldl_writeKey_pairs {r j : Nat} (h : r ≠ j) : ∀ (l : PDict) (s : Store),
    (l.foldl (fun s kv => writeKey s r kv.1 kv.2) s)[j]? = s[j]?
  | [], _ => rfl
  | kv :: t, s => by
    rw [List.foldl_cons, foldl_writeKey_pairs h t _, writeKey_getElem?_ne h]

theorem foldl_writeKey_cond {r j : Nat} (h : r ≠ j) : ∀ (l : PDict) (s : Store),
    (l.foldl (fun s kv => if kv.2 = .pnone then s else writeKey s r kv.1 kv.2)
        s)[j]? = s[j]?
  | [], _ => rfl
  | kv :: t, s => by
    rw [List.foldl_cons, foldl_writeKey_cond h t _]
    split
    · rfl
    · rw [writeKey_getElem?_ne h]

theorem find_min_max_getElem? {arr : List ℚ} {st : Store} {r j : Nat}
    (h : r ≠ j) : (find_min_max arr st r)[j]? = st[j]? := by
  unfold find_min_max
  dsimp only
  split
  · split
    · rw [writeKey_getElem?_ne h, writeKey_getElem?_ne h]
    · rw [writeKey_getElem?_ne h]
  · split
    · rw [writeKey_getElem?_ne h]
    · rfl

theorem pp_apply_defaults_pres {r j : Nat} (h : r ≠ j) (defaults : Option PDict)
    (s : Store) : (pp_apply_defaults r defaults s)[j]? = s[j]? := by
  cases defaults
  · rfl
  · exact foldl_writeKey_pairs h _ _

theorem pp_apply_globs_pres {r j : Nat} (h : r ≠ j) (globs : Option PDict)
    (s : Store) : (pp_apply_globs r globs s)[j]? = s[j]? := by
  cases globs
  · rfl
  · exact foldl_writeKey_cond h _ _

theorem pp_apply_params_pres {r j : Nat} (h : r ≠ j)
    (params : Option PParamArg) (s : Store) :
    (pp_apply_params r params s)[j]? = s[j]? := by
  rcases params with _ | (b | d)
  · rfl
  · exact writeKey_getElem?_ne h
  · exact foldl_writeKey_pairs h _ _

theorem pp_min_max_pres {r j : Nat} (h : r ≠ j) (variableArg : Option PyVar)
    (array : Option (List ℚ)) (s : Store) :
    ((pp_min_max r variableArg array s).1)[j]? = s[j]? := by
  rcases variableArg with _ | v <;> rcases array with _ | arr <;>
    simp only [pp_min_max, find_min_max_getElem? h]

theorem pp_norm_pres {r j : Nat} (h : r ≠ j) (min_val max_val : Option ℚ)
    (sn : Store × Bool) : (pp_norm r min_val max_val sn)[j]? = sn.1[j]? := by
  unfold pp_norm
  split
  · rcases min_val with _ | mv <;> rcases max_val with _ | mx <;>
      simp only [writeKey_getElem?_ne h]
  · rfl

theorem pp_cmap_pres {r j : Nat} (h : r ≠ j) (s : Store) :
    (pp_cmap r s)[j]? = s[j]? := by
  unfold pp_cmap
  split
  · rfl
  · exact writeKey_getElem?_ne h

/-- C9: `parse_params` never mutates the global config: it copies
`config["params"]` into a fresh dict before applying defaults, global
and user parameters, so the heap cell holding `config["params"]`
(and in fact every pre-existing cell) is unchanged by the call. -/
theorem parse_params_preserves_config (st : Store) (cfgRef : Nat)
    (params : Option PParamArg) (defaults globs : Option PDict)
    (variableArg : Option PyVar) (array : Option (List ℚ))
    (min_val max_val : Option ℚ) (h : cfgRef < st.length) :
    ((parse_params st cfgRef params defaults globs variableArg array
        min_val max_val).1)[cfgRef]? = st[cfgRef]? := by
  have hne : st.length ≠ cfgRef := by omega
  unfold parse_params
  dsimp only
  rw [pp_cmap_pres hne, pp_norm_pres hne, pp_min_max_pres hne,
    pp_apply_params_pres hne, pp_apply_globs_pres hne,
    pp_apply_defaults_pres hne, List.getElem?_append_left h]

theorem parse_params_preserves_config_witness :
    ((parse_params [config.params] 0 none none none none none none
        none).1)[0]? = [config.params][0]? :=
  parse_params_preserves_config [config.params] 0 none none none none none
    none none (by norm_num)

/-- C1: with `projection=None` (and no `bins`), `dispatch` routes by
dimensionality: it calls `plot_1d` on the data arrays exactly when
`ndim == 1`, and `plot_2d` exactly when `ndim >= 2` (for three or
more dimensions the projection also defaults to 2d). -/
theorem dispatch_routes_by_ndim (data_arrays : List (String × DataEntry))
    (name : Option String) (mpl : Option StyleMaps) (ndim : Nat)
    (h : 1 ≤ ndim) :
    (ndim = 1 → dispatch data_arrays ndim name none none mpl =
      .ok (.oneD data_arrays mpl))
    ∧ (2 ≤ ndim → dispatch data_arrays ndim name none none mpl =
      .ok (.twoD data_arrays)) := by
  constructor
  · rintro rfl
    show dispatchRoute data_arrays 1 none mpl = .ok (.oneD data_arrays mpl)
    unfold dispatchRoute
    rw [show pyLower (projDefault 1 none) = "1d" from by decide]
    rfl
  · intro h2
    by_cases h3 : ndim < 3
    · obtain rfl : ndim = 2 := by omega
      show dispatchRoute data_arrays 2 none mpl = .ok (.twoD data_arrays)
      unfold dispatchRoute
      rw [show pyLower (projDefault 2 none) = "2d" from by decide]
      rw [if_neg (show ("2d" : String) ≠ "1d" from by decide), if_pos rfl]
    · unfold dispatch
      rw [if_neg (show ¬ ndim < 1 by omega)]
      show dispatchRoute data_arrays ndim none mpl = .ok (.twoD data_arrays)
      unfold dispatchRoute projDefault
      rw [if_neg h3]
      rw [show pyLower "2d" = "2d" from by decide]
      rw [if_neg (show ("2d" : String) ≠ "1d" from by decide), if_pos rfl]

theorem dispatch_routes_by_ndim_witness :
    dispatch [] 1 none none none none = .ok (.oneD [] none)
    ∧ dispatch [] 2 none none none none = .ok (.twoD []) :=
  ⟨(dispatch_routes_by_ndim [] none none 1 (by norm_num)).1 rfl,
    (dispatch_routes_by_ndim [] none none 2 (by norm_num)).2 (by norm_num)⟩

theorem dispatchRoute_error_iff (d : List (String × DataEntry)) (ndim : Nat)
    (projection : Option String) (mpl : Option StyleMaps) :
    (∃ e, dispatchRoute d ndim projection mpl = .error e) ↔
      (pyLower (projDefault ndim projection) = "3d"
        ∨ (pyLower (projDefault ndim projection) ≠ "1d"
          ∧ pyLower (projDefault ndim projection) ≠ "2d"
          ∧ pyLower (projDefault ndim projection) ≠ "3d")) := by
  unfold dispatchRoute
  by_cases h1 : pyLower (projDefault ndim projection) = "1d"
  · simp [h1]
  · by_cases h2 : pyLower (projDefault ndim projection) = "2d"
    · simp [h2]
    · by_cases h3 : pyLower (projDefault ndim projection) = "3d"
      · simp [h1, h2, h3]
      · simp [h1, h2, h3]

/-- C2, counterexample: at `ndim = 1` with the recognized projection
string `"3d"` (and no `bins`), `dispatch` still raises — the `"3d"`
branch evaluates the name `plot_3d`, whose import is commented out, so
`NameError` — although the claim allows an error only for `ndim < 1`
or an unrecognized lowercased projection. -/
theorem dispatch_error_cex :
    dispatch [("a", DataEntry.mk (VarData.mk ["x"] "m"))] 1 none none
      (some "3d") none = .error (.nameError "plot_3d")
    ∧ ¬ ((1 : Nat) < 1)
    ∧ pyLower "3d" ∈ ["1d", "2d", "3d"] := by
  refine ⟨rfl, by norm_num, by decide⟩

/-- C2 (amended): `dispatch` raises synchronously exactly when the
dimensionality is invalid (`ndim < 1`), or `bins` is supplied nonempty
together with nonempty data (the histogramming helper
`histogram_events_data` is not imported), or the projection string
after defaulting and lowercasing is `"3d"` (the `plot_3d` import is
commented out) or is not one of `"1d"`, `"2d"`, `"3d"`.  The
`Except` result is all-or-nothing: an error aborts the whole call
with no partial result. -/
theorem dispatch_error_iff (data_arrays : List (String × DataEntry))
    (ndim : Nat) (name : Option String)
    (bins : Option (List (String × Nat))) (projection : Option String)
    (mpl : Option StyleMaps) :
    (∃ e, dispatch data_arrays ndim name bins projection mpl = .error e)
    ↔ (ndim < 1
      ∨ (∃ bs, bins = some bs ∧ bs ≠ [] ∧ data_arrays ≠ [])
      ∨ pyLower (projDefault ndim projection) = "3d"
      ∨ (pyLower (projDefault ndim projection) ≠ "1d"
        ∧ pyLower (projDefault ndim projection) ≠ "2d"
        ∧ pyLower (projDefault ndim projection) ≠ "3d")) := by
  unfold dispatch
  by_cases h1 : ndim < 1
  · simp [h1]
  · rcases bins with _ | bs
    · rw [if_neg h1]
      show (∃ e, dispatchRoute data_arrays ndim projection mpl = .error e) ↔ _
      rw [dispatchRoute_error_iff]
      constructor
      · intro hcase
        exact Or.inr (Or.inr hcase)
      · rintro (hlt | ⟨bs2, hb, hx1, hx2⟩ | h3 | hother)
        · exact absurd hlt h1
        · exact Option.noConfusion hb
        · exact Or.inl h3
        · exact Or.inr hother
    · rw [if_neg h1]
      show (∃ e, (if data_arrays ≠ [] ∧ bs ≠ [] then
          Except.error (PyError.nameError "histogram_events_data")
        else dispatchRoute data_arrays ndim projection mpl) = .error e) ↔ _
      by_cases h2 : data_arrays ≠ [] ∧ bs ≠ []
      · rw [if_pos h2]
        constructor
        · intro hx
          exact Or.inr (Or.inl ⟨bs, rfl, h2.2, h2.1⟩)
        · intro hx
          exact ⟨.nameError "histogram_events_data", rfl⟩
      · rw [if_neg h2, dispatchRoute_error_iff]
        constructor
        · intro hcase
          exact Or.inr (Or.inr hcase)
        · rintro (hlt | ⟨bs2, hb, hbne, hdne⟩ | h3 | hother)
          · exact absurd hlt h1
          · injection hb with hb
            subst hb
            exact absurd ⟨hdne, hbne⟩ h2
          · exact Or.inl h3
          · exact Or.inr hother

theorem processEntry_zero_dims (proj : Option String) (axes : Option AxesSpec)
    (lp : LineParams) (st : PState) (nv : String × DataEntry)
    (h : nv.2.data.dims = []) : processEntry proj axes lp st nv = .ok st := by
  simp [processEntry, h]

theorem processEntries_cons (proj : Option String) (axes : Option AxesSpec)
    (lp : LineParams) (st : PState) (nv : String × DataEntry)
    (l : List (String × DataEntry)) :
    processEntries proj axes lp st (nv :: l) =
      match processEntry proj axes lp st nv with
      | .ok st2 => processEntries proj axes lp st2 l
      | .error e => .error e := rfl

theorem processEntries_filter (proj : Option String) (axes : Option AxesSpec)
    (lp : LineParams) :
    ∀ (l : List (String × DataEntry)) (st : PState),
      processEntries proj axes lp st
          (l.filter fun nv => !nv.2.data.dims.isEmpty) =
        processEntries proj axes lp st l
  | [], _ => rfl
  | nv :: t, st => by
    by_cases hnv : nv.2.data.dims.isEmpty
    · have hdims : nv.2.data.dims = [] := by
        cases hd : nv.2.data.dims
        · rfl
        · rw [hd] at hnv
          simp at hnv
      rw [show (nv :: t).filter (fun nv => !nv.2.data.dims.isEmpty) =
          t.filter (fun nv => !nv.2.data.dims.isEmpty) from by
        simp [List.filter_cons, hnv]]
      rw [processEntries_cons, processEntry_zero_dims proj axes lp st nv hdims]
      exact processEntries_filter proj axes lp t st
    · rw [show (nv :: t).filter (fun nv => !nv.2.data.dims.isEmpty) =
          nv :: t.filter (fun nv => !nv.2.data.dims.isEmpty) from by
        simp [List.filter_cons, hnv]]
      rw [processEntries_cons, processEntries_cons]
      cases hpe : processEntry proj axes lp st nv with
      | error e => rfl
      | ok st2 => exact processEntries_filter proj axes lp t st2

theorem insertSorted_cons (nv h : String × DataEntry)
    (t : List (String × DataEntry)) :
    insertSorted nv (h :: t) =
      if h.1 < nv.1 then h :: insertSorted nv t else nv :: h :: t := rfl

theorem mem_insertSorted (nv c : String × DataEntry) :
    ∀ (l : List (String × DataEntry)),
      c ∈ insertSorted nv l ↔ c = nv ∨ c ∈ l
  | [] => by simp [insertSorted]
  | h :: t => by
    rw [insertSorted_cons]
    split
    · simp only [List.mem_cons, mem_insertSorted nv c t]
      tauto
    · simp only [List.mem_cons]

theorem insertSorted_of_le (nv : String × DataEntry)
    (l : List (String × DataEntry)) (hall : ∀ c ∈ l, ¬ c.1 < nv.1) :
    insertSorted nv l = nv :: l := by
  cases l with
  | nil => rfl
  | cons h t =>
    rw [insertSorted_cons, if_neg (hall h (List.mem_cons_self h t))]

theorem pairwise_insertSorted (nv : String × DataEntry) :
    ∀ (l : List (String × DataEntry)),
      l.Pairwise (fun a b => a.1 ≤ b.1) →
      (insertSorted nv l).Pairwise (fun a b => a.1 ≤ b.1)
  | [], _ => List.pairwise_singleton _ _
  | h :: t, hl => by
    rw [List.pairwise_cons] at hl
    rw [insertSorted_cons]
    split
    · rw [List.pairwise_cons]
      refine ⟨?_, pairwise_insertSorted nv t hl.2⟩
      intro c hc
      rcases (mem_insertSorted nv c t).mp hc with rfl | hct
      · exact le_of_lt (by assumption)
      · exact hl.1 c hct
    · rw [List.pairwise_cons]
      refine ⟨?_, List.pairwise_cons.mpr hl⟩
      intro c hc
      rcases List.mem_cons.mp hc with rfl | hct
      · exact le_of_not_lt (by assumption)
      · exact le_trans (le_of_not_lt (by assumption)) (hl.1 c hct)

theorem sortByName_pairwise :
    ∀ l : List (String × DataEntry),
      (sortByName l).Pairwise (fun a b => a.1 ≤ b.1)
  | [] => List.Pairwise.nil
  | h :: t => pairwise_insertSorted h (sortByName t) (sortByName_pairwise t)

theorem filter_insertSorted (p : (String × DataEntry) → Bool)
    (nv : String × DataEntry) :
    ∀ (l : List (String × DataEntry)),
      l.Pairwise (fun a b => a.1 ≤ b.1) →
      (insertSorted nv l).filter p =
        if p nv then insertSorted nv (l.filter p) else l.filter p
  | [], _ => by
    cases hp : p nv <;> simp [insertSorted, hp]
  | h :: t, hl => by
    rw [List.pairwise_cons] at hl
    rw [insertSorted_cons]
    by_cases hlt : h.1 < nv.1
    · rw [if_pos hlt]
      have ih := filter_insertSorted p nv t hl.2
      cases hph : p h <;> cases hpn : p nv <;>
        simp [List.filter_cons, hph, hpn, ih, insertSorted_cons, hlt]
    · rw [if_neg hlt]
      cases hpn : p nv
      · simp [List.filter_cons, hpn]
      · have hall : ∀ c ∈ (h :: t).filter p, ¬ c.1 < nv.1 := by
          intro c hc
          have hcmem : c ∈ h :: t := List.mem_of_mem_filter hc
          rcases List.mem_cons.mp hcmem with rfl | hct
          · exact hlt
          · exact not_lt.mpr (le_trans (le_of_not_lt hlt) (hl.1 c hct))
        rw [insertSorted_of_le nv ((h :: t).filter p) hall]
        simp [List.filter_cons, hpn]

theorem filter_sortByName (p : (String × DataEntry) → Bool) :
    ∀ l : List (String × DataEntry),
      (sortByName l).filter p = sortByName (l.filter p)
  | [] => rfl
  | h :: t => by
    show (insertSorted h (sortByName t)).filter p = _
    rw [filter_insertSorted p h (sortByName t) (sortByName_pairwise t)]
    rw [filter_sortByName p t]
    cases hp : p h <;> simp [List.filter_cons, hp, sortByName]

/-- C8: an input entry whose data has zero dimensions is silently
skipped by `plot`: the whole call behaves exactly as if the entry were
absent — it contributes no group, no figure appears in the output, and
no error arises from it (even though `dispatch` itself rejects
`ndim < 1`). -/
theorem plot_skips_zero_dim_entries (proj : Option String)
    (axes : Option AxesSpec) (lp : LineParams)
    (bins : Option (List (String × Nat))) (inv : List (String × DataEntry)) :
    plot proj axes lp bins inv =
      plot proj axes lp bins
        (inv.filter fun nv => !nv.2.data.dims.isEmpty) := by
  unfold plot plotGroups
  rw [← filter_sortByName, processEntries_filter]

theorem alGet_alSet_self {α : Type} (l : List (String × α)) (k : String)
    (v : α) : alGet (alSet l k v) k = some v := by
  induction l with
  | nil => simp [alGet, alSet]
  | cons kv t ih =>
    by_cases hk : kv.1 = k
    · simp [alGet, alSet, hk]
    · simp [alGet, alSet, hk, ih]

theorem alGet_alSet_ne {α : Type} (l : List (String × α)) (k k2 : String)
    (v : α) (h : k ≠ k2) : alGet (alSet l k v) k2 = alGet l k2 := by
  induction l with
  | nil => simp [alGet, alSet, h]
  | cons kv t ih =>
    by_cases hk : kv.1 = k
    · rw [show alSet (kv :: t) k v = (k, v) :: t from by simp [alSet, hk]]
      simp [alGet, h, hk]
    · rw [show alSet (kv :: t) k v = kv :: alSet t k v from by
        simp [alSet, hk]]
      by_cases hk2 : kv.1 = k2 <;> simp [alGet, hk2, ih]

theorem alGet_alSet_some {α : Type} (l : List (String × α)) (k k2 : String)
    (v v2 : α) (h : alGet (alSet l k v) k2 = some v2) :
    k2 = k ∨ alGet l k2 = some v2 := by
  by_cases hk : k = k2
  · exact Or.inl hk.symm
  · rw [alGet_alSet_ne l k k2 v hk] at h
    exact Or.inr h

theorem mem_alSet {α : Type} (l : List (String × α)) (k : String) (v : α) :
    ∀ kg ∈ alSet l k v, kg = (k, v) ∨ kg ∈ l := by
  induction l with
  | nil => simp [alSet]
  | cons kv t ih =>
    intro kg hkg
    by_cases hk : kv.1 = k
    · rw [show alSet (kv :: t) k v = (k, v) :: t from by simp [alSet, hk]]
        at hkg
      rcases List.mem_cons.mp hkg with rfl | hmem
      · exact Or.inl rfl
      · exact Or.inr (List.mem_cons_of_mem kv hmem)
    · rw [show alSet (kv :: t) k v = kv :: alSet t k v from by
        simp [alSet, hk]] at hkg
      rcases List.mem_cons.mp hkg with rfl | hmem
      · exact Or.inr (List.mem_cons_self kg t)
      · rcases ih kg hmem with h1 | h2
        · exact Or.inl h1
        · exact Or.inr (List.mem_cons_of_mem kv h2)

theorem alGet_some_mem {α : Type} :
    ∀ (l : List (String × α)) (k : String) (v : α),
      alGet l k = some v → (k, v) ∈ l
  | [], k, v, h => by simp [alGet] at h
  | kv :: t, k, v, h => by
    by_cases hk : kv.1 = k
    · rw [alGet, if_pos hk] at h
      injection h with h
      subst h
      subst hk
      exact List.mem_cons_self _ t
    · rw [alGet, if_neg hk] at h
      exact List.mem_cons_of_mem kv (alGet_some_mem t k v h)

theorem insertSorted_perm (nv : String × DataEntry) :
    ∀ l : List (String × DataEntry), (insertSorted nv l).Perm (nv :: l)
  | [] => List.Perm.refl _
  | h :: t => by
    rw [insertSorted_cons]
    split
    · exact ((insertSorted_perm nv t).cons h).trans (List.Perm.swap nv h t)
    · exact List.Perm.refl _

theorem sortByName_perm :
    ∀ l : List (String × DataEntry), (sortByName l).Perm l
  | [] => List.Perm.refl _
  | h :: t => (insertSorted_perm h (sortByName t)).trans
      ((sortByName_perm t).cons h)

theorem takeThrough_append_of_mem (nm : String) :
    ∀ (pre l2 : List (String × DataEntry)), nm ∈ pre.map Prod.fst →
      takeThrough nm (pre ++ l2) = takeThrough nm pre
  | [], _, h => by simp at h
  | kv :: t, l2, h => by
    by_cases hk : kv.1 = nm
    · simp [takeThrough, hk]
    · rw [List.cons_append, takeThrough, if_neg hk, takeThrough, if_neg hk]
      rw [takeThrough_append_of_mem nm t l2 ?_]
      rcases List.mem_map.mp h with ⟨x, hx, hxn⟩
      rcases List.mem_cons.mp hx with rfl | hxt
      · exact absurd hxn hk
      · exact List.mem_map.mpr ⟨x, hxt, hxn⟩

theorem takeThrough_append_self :
    ∀ (pre : List (String × DataEntry)) (nv : String × DataEntry),
      nv.1 ∉ pre.map Prod.fst →
      takeThrough nv.1 (pre ++ [nv]) = pre ++ [nv]
  | [], nv, _ => by simp [takeThrough]
  | kv :: t, nv, h => by
    have hk : kv.1 ≠ nv.1 := by
      intro hc
      exact h (List.mem_map.mpr ⟨kv, List.mem_cons_self kv t, hc⟩)
    rw [List.cons_append, takeThrough, if_neg hk,
      takeThrough_append_self t nv ?_]
    intro hc
    rcases List.mem_map.mp hc with ⟨x, hx, hxn⟩
    exact h (List.mem_map.mpr ⟨x, List.mem_cons_of_mem kv hx, hxn⟩)

theorem lcCount_append_single (proj : Option String)
    (pre : List (String × DataEntry)) (nv : String × DataEntry) :
    lcCount proj (pre ++ [nv]) = lcCount proj pre +
      (if !nv.2.data.dims.isEmpty && oneDish proj nv.2 then 1 else 0) := by
  simp [lcCount, List.countP_append, List.countP_cons]

theorem oneDish_true_iff (proj : Option String) (e : DataEntry) :
    oneDish proj e = true ↔
      (e.data.dims.length = 1 ∨ proj = some "1d" ∨ proj = some "1D") := by
  simp [oneDish]
  tauto

theorem processEntry_ok_inversion (proj : Option String)
    (axes : Option AxesSpec) (lp : LineParams) (st : PState)
    (nv : String × DataEntry) (st2 : PState)
    (hdims : nv.2.data.dims ≠ [])
    (hstep : processEntry proj axes lp st nv = .ok st2) :
    ∃ lc vc vm vls vlw g0,
      lc = (if oneDish proj nv.2 then st.lc + 1 else st.lc)
      ∧ resolveParam .color lp.color nv.1 lc = .ok vc
      ∧ resolveParam .marker lp.marker nv.1 lc = .ok vm
      ∧ resolveParam .linestyle lp.linestyle nv.1 lc = .ok vls
      ∧ resolveParam .linewidth lp.linewidth nv.1 lc = .ok vlw
      ∧ (alGet st.groups (groupKey proj axes nv.1 nv.2) = some g0
          ∨ (alGet st.groups (groupKey proj axes nv.1 nv.2) = none
            ∧ g0 = Group.mk nv.2.data.dims.length [] axes
                (StyleMaps.mk [] [] [] [])))
      ∧ st2 = PState.mk lc (alSet st.groups (groupKey proj axes nv.1 nv.2)
          (Group.mk g0.ndims (alSet g0.data_arrays nv.1 nv.2) g0.axes
            (StyleMaps.mk (alSet g0.mpl.mapColor nv.1 vc)
              (alSet g0.mpl.mapMarker nv.1 vm)
              (alSet g0.mpl.mapLinestyle nv.1 vls)
              (alSet g0.mpl.mapLinewidth nv.1 vlw)))) := by
  have hpos : 0 < nv.2.data.dims.length := List.length_pos.mpr hdims
  unfold processEntry at hstep
  dsimp only at hstep
  rw [if_pos hpos] at hstep
  by_cases hone : nv.2.data.dims.length = 1 ∨ proj = some "1d" ∨
      proj = some "1D"
  · have honeB : oneDish proj nv.2 = true := (oneDish_true_iff _ _).mpr hone
    rw [if_pos hone] at hstep
    rcases axes with _ | (ax | ad)
    · have hgk : groupKey proj none nv.1 nv.2 =
          String.intercalate "." nv.2.data.dims ++ "." ++ nv.2.data.unit := by
        simp [groupKey, honeB]
      dsimp only at hstep
      cases hrc : resolveParam .color lp.color nv.1 (st.lc + 1) with
      | error e => rw [hrc] at hstep; simp at hstep
      | ok vc =>
      rw [hrc] at hstep
      dsimp only at hstep
      cases hrm : resolveParam .marker lp.marker nv.1 (st.lc + 1) with
      | error e => rw [hrm] at hstep; simp at hstep
      | ok vm =>
      rw [hrm] at hstep
      dsimp only at hstep
      cases hrls : resolveParam .linestyle lp.linestyle nv.1 (st.lc + 1) with
      | error e => rw [hrls] at hstep; simp at hstep
      | ok vls =>
      rw [hrls] at hstep
      dsimp only at hstep
      cases hrlw : resolveParam .linewidth lp.linewidth nv.1 (st.lc + 1) with
      | error e => rw [hrlw] at hstep; simp at hstep
      | ok vlw =>
      rw [hrlw] at hstep
      dsimp only at hstep
      cases hg0 : alGet st.groups
          (String.intercalate "." nv.2.data.dims ++ "." ++ nv.2.data.unit) with
      | some g =>
        rw [hg0] at hstep
        dsimp only at hstep
        injection hstep with hstep
        refine ⟨st.lc + 1, vc, vm, vls, vlw, g, by simp [honeB],
          hrc, hrm, hrls, hrlw, Or.inl (by rw [hgk]; exact hg0), ?_⟩
        rw [hgk]
        exact hstep.symm
      | none =>
        rw [hg0] at hstep
        dsimp only at hstep
        injection hstep with hstep
        refine ⟨st.lc + 1, vc, vm, vls, vlw, _, by simp [honeB],
          hrc, hrm, hrls, hrlw, Or.inr ⟨by rw [hgk]; exact hg0, rfl⟩, ?_⟩
        rw [hgk]
        exact hstep.symm
    · have hgk : groupKey proj (some (.alist ax)) nv.1 nv.2 =
          String.intercalate "." ax ++ "." ++ nv.2.data.unit := by
        simp [groupKey, honeB]
      dsimp only at hstep
      cases hrc : resolveParam .color lp.color nv.1 (st.lc + 1) with
      | error e => rw [hrc] at hstep; simp at hstep
      | ok vc =>
      rw [hrc] at hstep
      dsimp only at hstep
      cases hrm : resolveParam .marker lp.marker nv.1 (st.lc + 1) with
      | error e => rw [hrm] at hstep; simp at hstep
      | ok vm =>
      rw [hrm] at hstep
      dsimp only at hstep
      cases hrls : resolveParam .linestyle lp.linestyle nv.1 (st.lc + 1) with
      | error e => rw [hrls] at hstep; simp at hstep
      | ok vls =>
      rw [hrls] at hstep
      dsimp only at hstep
      cases hrlw : resolveParam .linewidth lp.linewidth nv.1 (st.lc + 1) with
      | error e => rw [hrlw] at hstep; simp at hstep
      | ok vlw =>
      rw [hrlw] at hstep
      dsimp only at hstep
      cases hg0 : alGet st.groups
          (String.intercalate "." ax ++ "." ++ nv.2.data.unit) with
      | some g =>
        rw [hg0] at hstep
        dsimp only at hstep
        injection hstep with hstep
        refine ⟨st.lc + 1, vc, vm, vls, vlw, g, by simp [honeB],
          hrc, hrm, hrls, hrlw, Or.inl (by rw [hgk]; exact hg0), ?_⟩
        rw [hgk]
        exact hstep.symm
      | none =>
        rw [hg0] at hstep
        dsimp only at hstep
        injection hstep with hstep
        refine ⟨st.lc + 1, vc, vm, vls, vlw, _, by simp [honeB],
          hrc, hrm, hrls, hrlw, Or.inr ⟨by rw [hgk]; exact hg0, rfl⟩, ?_⟩
        rw [hgk]
        exact hstep.symm
    · dsimp only at hstep
      simp at hstep
  · have honeB : oneDish proj nv.2 = false := by
      rw [← Bool.not_eq_true]
      intro hc
      exact hone ((oneDish_true_iff _ _).mp hc)
    rw [if_neg hone] at hstep
    have hgk : groupKey proj axes nv.1 nv.2 = nv.1 := by
      simp [groupKey, honeB]
    dsimp only at hstep
    cases hrc : resolveParam .color lp.color nv.1 st.lc with
    | error e => rw [hrc] at hstep; simp at hstep
    | ok vc =>
    rw [hrc] at hstep
    dsimp only at hstep
    cases hrm : resolveParam .marker lp.marker nv.1 st.lc with
    | error e => rw [hrm] at hstep; simp at hstep
    | ok vm =>
    rw [hrm] at hstep
    dsimp only at hstep
    cases hrls : resolveParam .linestyle lp.linestyle nv.1 st.lc with
    | error e => rw [hrls] at hstep; simp at hstep
    | ok vls =>
    rw [hrls] at hstep
    dsimp only at hstep
    cases hrlw : resolveParam .linewidth lp.linewidth nv.1 st.lc with
    | error e => rw [hrlw] at hstep; simp at hstep
    | ok vlw =>
    rw [hrlw] at hstep
    dsimp only at hstep
    cases hg0 : alGet st.groups nv.1 with
    | some g =>
      rw [hg0] at hstep
      dsimp only at hstep
      injection hstep with hstep
      refine ⟨st.lc, vc, vm, vls, vlw, g, by simp [honeB],
        hrc, hrm, hrls, hrlw, Or.inl (by rw [hgk]; exact hg0), ?_⟩
      rw [hgk]
      exact hstep.symm
    | none =>
      rw [hg0] at hstep
      dsimp only at hstep
      injection hstep with hstep
      refine ⟨st.lc, vc, vm, vls, vlw, _, by simp [honeB],
        hrc, hrm, hrls, hrlw, Or.inr ⟨by rw [hgk]; exact hg0, rfl⟩, ?_⟩
      rw [hgk]
      exact hstep.symm

theorem plotInv_step (proj : Option String) (axes : Option AxesSpec)
    (lp : LineParams) (pre : List (String × DataEntry)) (st st2 : PState)
    (nv : String × DataEntry) (hfresh : nv.1 ∉ pre.map Prod.fst)
    (hInv : PlotInv proj axes lp pre st)
    (hstep : processEntry proj axes lp st nv = .ok st2) :
    PlotInv proj axes lp (pre ++ [nv]) st2 := by
  obtain ⟨hlc, hnames, hmem⟩ := hInv
  have hnamePre : ∀ nv2 ∈ pre, nv2.1 ≠ nv.1 := by
    intro nv2 h2 hc
    exact hfresh (by rw [← hc]; exact List.mem_map.mpr ⟨nv2, h2, rfl⟩)
  by_cases hdims : nv.2.data.dims = []
  · rw [processEntry_zero_dims proj axes lp st nv hdims] at hstep
    injection hstep with hstep
    subst hstep
    refine ⟨?_, ?_, ?_⟩
    · rw [hlc, lcCount_append_single]
      simp [hdims]
    · intro kg hkg nm hnm
      rw [List.map_append]
      exact List.mem_append_left _ (hnames kg hkg nm hnm)
    · intro nv2 hnv2 hd2
      rcases List.mem_append.mp hnv2 with hpre | hsing
      · have hlcat : lcAt proj (pre ++ [nv]) nv2.1 = lcAt proj pre nv2.1 := by
          unfold lcAt
          rw [takeThrough_append_of_mem nv2.1 pre [nv]
            (List.mem_map.mpr ⟨nv2, hpre, rfl⟩)]
        obtain ⟨⟨g, hg1, hg2, hg3⟩, huniq⟩ := hmem nv2 hpre hd2
        exact ⟨⟨g, hg1, hg2, fun n => by rw [hlcat]; exact hg3 n⟩, huniq⟩
      · rw [List.mem_singleton] at hsing
        subst hsing
        exact absurd hdims hd2
  · obtain ⟨lc, vc, vm, vls, vlw, g0, hlceq, hrc, hrm, hrls, hrlw, hg0, hst2⟩ :=
      processEntry_ok_inversion proj axes lp st nv st2 hdims hstep
    subst hlceq
    subst hst2
    refine ⟨?_, ?_, ?_⟩
    · dsimp only
      rw [hlc, lcCount_append_single]
      have hne : (!nv.2.data.dims.isEmpty) = true := by simp [hdims]
      rw [hne]
      cases honeB : oneDish proj nv.2 <;> simp [honeB] <;> push_cast <;> omega
    · intro kg hkg nm hnm
      rcases mem_alSet st.groups _ _ kg hkg with rfl | hold
      · obtain ⟨e, he⟩ := hnm
        dsimp only at he
        rcases alGet_alSet_some _ _ _ _ _ he with rfl | hg0get
        · rw [List.map_append]
          exact List.mem_append_right _ (by simp)
        · rcases hg0 with hg0some | ⟨hg0none, rfl⟩
          · have hkg0 : (groupKey proj axes nv.1 nv.2, g0) ∈ st.groups :=
              alGet_some_mem _ _ _ hg0some
            rw [List.map_append]
            exact List.mem_append_left _
              (hnames (groupKey proj axes nv.1 nv.2, g0) hkg0 nm ⟨e, hg0get⟩)
          · simp [alGet] at hg0get
      · rw [List.map_append]
        exact List.mem_append_left _ (hnames kg hold nm hnm)
    · intro nv2 hnv2 hd2
      rcases List.mem_append.mp hnv2 with hpre | hsing
      · have hne12 : nv2.1 ≠ nv.1 := hnamePre nv2 hpre
        have hlcat : lcAt proj (pre ++ [nv]) nv2.1 = lcAt proj pre nv2.1 := by
          unfold lcAt
          rw [takeThrough_append_of_mem nv2.1 pre [nv]
            (List.mem_map.mpr ⟨nv2, hpre, rfl⟩)]
        obtain ⟨⟨g, hg1, hg2, hg3⟩, huniq⟩ := hmem nv2 hpre hd2
        by_cases hkk : groupKey proj axes nv2.1 nv2.2 =
            groupKey proj axes nv.1 nv.2
        · have hg0g : g0 = g := by
            rcases hg0 with hg0some | ⟨hg0none, rfl⟩
            · rw [hkk] at hg1
              rw [hg1] at hg0some
              injection hg0some with hgg
              exact hgg.symm
            · rw [hkk] at hg1
              rw [hg1] at hg0none
              exact absurd hg0none (by simp)
          subst hg0g
          constructor
          · refine ⟨_, by rw [hkk]; exact alGet_alSet_self _ _ _, ?_, ?_⟩
            · dsimp only
              rw [alGet_alSet_ne _ _ _ _ (fun hc => hne12 hc.symm)]
              exact hg2
            · intro n
              obtain ⟨v, hv1, hv2⟩ := hg3 n
              refine ⟨v, by rw [hlcat]; exact hv1, ?_⟩
              cases n <;>
                (dsimp only [StyleMaps.get] at hv2 ⊢
                 rw [alGet_alSet_ne _ _ _ _ (fun hc => hne12 hc.symm)]
                 exact hv2)
          · intro kg hkg hkgmem
            rcases mem_alSet _ _ _ kg hkg with rfl | hold
            · exact hkk.symm
            · exact huniq kg hold hkgmem
        · constructor
          · refine ⟨g, ?_, hg2, fun n => ?_⟩
            · rw [alGet_alSet_ne _ _ _ _ (fun hc => hkk hc.symm)]
              exact hg1
            · obtain ⟨v, hv1, hv2⟩ := hg3 n
              exact ⟨v, by rw [hlcat]; exact hv1, hv2⟩
          · intro kg hkg hkgmem
            rcases mem_alSet _ _ _ kg hkg with rfl | hold
            · obtain ⟨e2, he2⟩ := hkgmem
              dsimp only at he2
              rw [alGet_alSet_ne _ _ _ _ (fun hc => hne12 hc.symm)] at he2
              rcases hg0 with hg0some | ⟨hg0none, rfl⟩
              · have hkg0 : (groupKey proj axes nv.1 nv.2, g0) ∈ st.groups :=
                  alGet_some_mem _ _ _ hg0some
                have hu := huniq (groupKey proj axes nv.1 nv.2, g0) hkg0 ⟨e2, he2⟩
                exact absurd hu.symm hkk
              · simp [alGet] at he2
            · exact huniq kg hold hkgmem
      · rw [List.mem_singleton] at hsing
        subst hsing
        have hlcat : lcAt proj (pre ++ [nv2]) nv2.1 =
            (if oneDish proj nv2.2 then st.lc + 1 else st.lc) := by
          unfold lcAt
          rw [takeThrough_append_self pre nv2 hfresh, lcCount_append_single,
            hlc]
          have hne : (!nv2.2.data.dims.isEmpty) = true := by simp [hdims]
          rw [hne]
          cases honeB : oneDish proj nv2.2 <;> simp [honeB] <;> push_cast <;>
            omega
        constructor
        · refine ⟨_, alGet_alSet_self _ _ _, ?_, ?_⟩
          · dsimp only
            exact alGet_alSet_self _ _ _
          · intro n
            cases n
            · exact ⟨vc, by
                dsimp only [LineParams.get]
                rw [hlcat]
                exact hrc, by
                dsimp only [StyleMaps.get]
                exact alGet_alSet_self _ _ _⟩
            · exact ⟨vm, by
                dsimp only [LineParams.get]
                rw [hlcat]
                exact hrm, by
                dsimp only [StyleMaps.get]
                exact alGet_alSet_self _ _ _⟩
            · exact ⟨vls, by
                dsimp only [LineParams.get]
                rw [hlcat]
                exact hrls, by
                dsimp only [StyleMaps.get]
                exact alGet_alSet_self _ _ _⟩
            · exact ⟨vlw, by
                dsimp only [LineParams.get]
                rw [hlcat]
                exact hrlw, by
                dsimp only [StyleMaps.get]
                exact alGet_alSet_self _ _ _⟩
        · intro kg hkg hkgmem
          rcases mem_alSet _ _ _ kg hkg with rfl | hold
          · rfl
          · obtain ⟨e2, he2⟩ := hkgmem
            exact absurd (hnames kg hold nv2.1 ⟨e2, he2⟩) hfresh

theorem plotInv_init (proj : Option String) (axes : Option AxesSpec)
    (lp : LineParams) : PlotInv proj axes lp [] (PState.mk (-1) []) := by
  refine ⟨by simp [lcCount], ?_, ?_⟩
  · intro kg hkg
    simp at hkg
  · intro nv hnv
    simp at hnv

theorem plotInv_run (proj : Option String) (axes : Option AxesSpec)
    (lp : LineParams) :
    ∀ (l pre : List (String × DataEntry)) (st stf : PState),
      ((pre ++ l).map Prod.fst).Nodup →
      PlotInv proj axes lp pre st →
      processEntries proj axes lp st l = .ok stf →
      PlotInv proj axes lp (pre ++ l) stf
  | [], pre, st, stf, _, hInv, hok => by
    injection hok with hok
    subst hok
    simpa using hInv
  | nv :: t, pre, st, stf, hnd, hInv, hok => by
    rw [processEntries_cons] at hok
    cases hpe : processEntry proj axes lp st nv with
    | error e =>
      rw [hpe] at hok
      simp at hok
    | ok st2 =>
      rw [hpe] at hok
      dsimp only at hok
      have hfresh : nv.1 ∉ pre.map Prod.fst := by
        intro hc
        rw [List.map_append] at hnd
        have hdisj := (List.nodup_append.mp hnd).2.2
        exact hdisj hc (by simp)
      have hstep := plotInv_step proj axes lp pre st st2 nv hfresh hInv hpe
      have hassoc : (pre ++ [nv]) ++ t = pre ++ nv :: t := by simp
      have hnd3 : (((pre ++ [nv]) ++ t).map Prod.fst).Nodup := by
        rw [hassoc]
        exact hnd
      have hrun := plotInv_run proj axes lp t (pre ++ [nv]) st2 stf hnd3
        hstep hok
      rw [hassoc] at hrun
      exact hrun

theorem plotGroups_ok_inv (proj : Option String) (axes : Option AxesSpec)
    (lp : LineParams) (inv : List (String × DataEntry))
    (gs : List (String × Group)) (hok : plotGroups proj axes lp inv = .ok gs) :
    ∃ stf, processEntries proj axes lp (PState.mk (-1) [])
        (sortByName inv) = .ok stf ∧ stf.groups = gs := by
  unfold plotGroups at hok
  cases hpe : processEntries proj axes lp (PState.mk (-1) [])
      (sortByName inv) with
  | error e =>
    rw [hpe] at hok
    simp at hok
  | ok stf =>
    rw [hpe] at hok
    dsimp only at hok
    injection hok with hok
    exact ⟨stf, rfl, hok⟩

/-- C3 (amended): for every series processed by `plot` and each of the
four style parameters, the value stored for the series is resolved by
`resolveParam` (None ↦ index into the config defaults, list ↦ Python
indexing, dict ↦ entry by name or index, other values unchanged, then
ints through `get_line_param`) at index `line_count` — which starts at
`-1` and is incremented only for series that are 1-dimensional (or
forced 1D by the projection), *before* resolution.  So for a 1D series
the index is its 0-based position among the 1D series in sorted order,
while for a higher-dimensional series it is the index of the most
recent 1D series, `-1` (Python-resolved to the last default) if none
came before. -/
theorem plot_style_resolution (proj : Option String) (axes : Option AxesSpec)
    (lp : LineParams) (inv : List (String × DataEntry))
    (gs : List (String × Group)) (hnd : (inv.map Prod.fst).Nodup)
    (hok : plotGroups proj axes lp inv = .ok gs) :
    ∀ nv ∈ inv, nv.2.data.dims ≠ [] →
      ∃ g, alGet gs (groupKey proj axes nv.1 nv.2) = some g
        ∧ alGet g.data_arrays nv.1 = some nv.2
        ∧ ∀ n : LineParamName, ∃ v,
            resolveParam n (lp.get n) nv.1
              (lcAt proj (sortByName inv) nv.1) = .ok v
            ∧ alGet (g.mpl.get n) nv.1 = some v := by
  obtain ⟨stf, hpe, hgs⟩ := plotGroups_ok_inv proj axes lp inv gs hok
  have hnd2 : ((sortByName inv).map Prod.fst).Nodup :=
    (((sortByName_perm inv).map Prod.fst).nodup_iff).mpr hnd
  have hInv := plotInv_run proj axes lp (sortByName inv) [] (PState.mk (-1) [])
    stf (by simpa using hnd2) (plotInv_init proj axes lp) hpe
  rw [List.nil_append] at hInv
  obtain ⟨hlcf, hnamesf, hmemf⟩ := hInv
  intro nv hnv hdims
  have hnvs : nv ∈ sortByName inv := (sortByName_perm inv).mem_iff.mpr hnv
  obtain ⟨⟨g, hg1, hg2, hg3⟩, _⟩ := hmemf nv hnvs hdims
  rw [hgs] at hg1
  exact ⟨g, hg1, hg2, hg3⟩

/-- C3, counterexample: a single 2-dimensional entry with `color=None`
(no 1D series processed at all, so the claim's index would be 0 and
the color `config["color"][0] = "#1f77b4"`): the code resolves with
`line_count = -1`, i.e. the *last* default color `"#17becf"`. -/
theorem plot_style_resolution_cex :
    plotGroups none none (LineParams.mk .noneP .noneP .noneP .noneP)
        [("a", DataEntry.mk (VarData.mk ["x", "y"] "m"))]
      = .ok [("a", Group.mk 2
          [("a", DataEntry.mk (VarData.mk ["x", "y"] "m"))] none
          (StyleMaps.mk [("a", .str "#17becf")] [("a", .str "D")]
            [("a", .str "none")] [("a", .rat (3 / 2))]))]
    ∧ StyleV.str "#17becf" = get_line_param .color (-1)
    ∧ StyleV.str "#17becf" ≠ get_line_param .color 0 := by
  refine ⟨rfl, rfl, ?_⟩
  decide

theorem plot_style_resolution_witness :
    ∃ g, alGet [(("x.m" : String), Group.mk 1
          [("a", DataEntry.mk (VarData.mk ["x"] "m"))] none
          (StyleMaps.mk [("a", .str "#1f77b4")] [("a", .str "o")]
            [("a", .str "none")] [("a", .rat (3 / 2))]))]
        (groupKey none none "a" (DataEntry.mk (VarData.mk ["x"] "m")))
        = some g
      ∧ alGet g.data_arrays "a" = some (DataEntry.mk (VarData.mk ["x"] "m"))
      ∧ ∀ n : LineParamName, ∃ v,
          resolveParam n ((LineParams.mk .noneP .noneP .noneP .noneP).get n)
            "a" (lcAt none
              (sortByName [("a", DataEntry.mk (VarData.mk ["x"] "m"))]) "a")
            = .ok v
          ∧ alGet (g.mpl.get n) "a" = some v :=
  plot_style_resolution none none (LineParams.mk .noneP .noneP .noneP .noneP)
    [("a", DataEntry.mk (VarData.mk ["x"] "m"))] _ (by decide) rfl
    ("a", DataEntry.mk (VarData.mk ["x"] "m")) (by simp) (by simp)

theorem dispatch_ok_arrays (d : List (String × DataEntry)) (ndim : Nat)
    (nm : Option String) (bins : Option (List (String × Nat)))
    (proj : Option String) (mpl : Option StyleMaps) (fig : Figure)
    (h : dispatch d ndim nm bins proj mpl = .ok fig) :
    fig.arrays = d := by
  have hroute : dispatchRoute d ndim proj mpl = .ok fig → fig.arrays = d := by
    intro hq
    unfold dispatchRoute at hq
    dsimp only at hq
    split at hq
    · injection hq with hq
      subst hq
      rfl
    · split at hq
      · injection hq with hq
        subst hq
        rfl
      · split at hq
        · simp at hq
        · simp at hq
  unfold dispatch at h
  by_cases h1 : ndim < 1
  · rw [if_pos h1] at h
    simp at h
  · rw [if_neg h1] at h
    rcases bins with _ | bs
    · exact hroute h
    · dsimp only at h
      split at h
      · simp at h
      · exact hroute h

theorem dispatchGroups_ok_forward (proj : Option String)
    (bins : Option (List (String × Nat))) :
    ∀ (gs : List (String × Group)) (out : List (String × Figure)),
      dispatchGroups proj bins gs = .ok out →
      (∀ k g, alGet gs k = some g →
        ∃ fig, alGet out k = some fig ∧ fig.arrays = g.data_arrays)
      ∧ (∀ kf ∈ out, ∃ g, (kf.1, g) ∈ gs ∧ kf.2.arrays = g.data_arrays)
  | [], out, hok => by
    injection hok with hok
    subst hok
    refine ⟨?_, ?_⟩
    · intro k g hg
      simp [alGet] at hg
    · intro kf hkf
      simp at hkf
  | kg :: t, out, hok => by
    unfold dispatchGroups at hok
    cases hd : dispatch kg.2.data_arrays kg.2.ndims (some kg.1) bins proj
        (some kg.2.mpl) with
    | error e =>
      rw [hd] at hok
      simp at hok
    | ok fig =>
      rw [hd] at hok
      dsimp only at hok
      cases hrec : dispatchGroups proj bins t with
      | error e =>
        rw [hrec] at hok
        simp at hok
      | ok out2 =>
        rw [hrec] at hok
        dsimp only at hok
        injection hok with hok
        subst hok
        have harr : fig.arrays = kg.2.data_arrays :=
          dispatch_ok_arrays _ _ _ _ _ _ _ hd
        have ih := dispatchGroups_ok_forward proj bins t out2 hrec
        refine ⟨?_, ?_⟩
        · intro k g hg
          by_cases hk : kg.1 = k
          · rw [alGet, if_pos hk] at hg
            injection hg with hg
            subst hg
            exact ⟨fig, by rw [alGet, if_pos hk], harr⟩
          · rw [alGet, if_neg hk] at hg
            obtain ⟨fig2, hf1, hf2⟩ := ih.1 k g hg
            refine ⟨fig2, ?_, hf2⟩
            rw [alGet, if_neg hk]
            exact hf1
        · intro kf hkf
          rcases List.mem_cons.mp hkf with rfl | hmem
          · exact ⟨kg.2, List.mem_cons_self kg t, harr⟩
          · obtain ⟨g, hg1, hg2⟩ := ih.2 kf hmem
            exact ⟨g, List.mem_cons_of_mem kg hg1, hg2⟩

theorem plot_ok_inv (proj : Option String) (axes : Option AxesSpec)
    (lp : LineParams) (bins : Option (List (String × Nat)))
    (inv : List (String × DataEntry)) (out : List (String × Figure))
    (hok : plot proj axes lp bins inv = .ok out) :
    ∃ gs, plotGroups proj axes lp inv = .ok gs
      ∧ dispatchGroups proj bins gs = .ok out := by
  unfold plot at hok
  cases hpg : plotGroups proj axes lp inv with
  | error e =>
    rw [hpg] at hok
    simp at hok
  | ok gs =>
    rw [hpg] at hok
    dsimp only at hok
    exact ⟨gs, rfl, hok⟩

/-- C4 (amended): with no custom `axes`, `plot` returns a collection
keyed by the grouping used: every 1-dimensional entry (or any entry
when the projection is "1d"/"1D") is placed in the group keyed by the
dot-joined dimension names followed by "." and the unit, so entries
with identical dims and unit share one group and one figure; every
higher-dimensional entry is placed in the group keyed by its name; and
each entry with at least one dimension belongs to exactly one group.
(When a list of `axes` is supplied, the dot-joined axes labels replace
the dimension names in the 1D group key — see the counterexample.) -/
theorem plot_groups_by_key (proj : Option String) (lp : LineParams)
    (bins : Option (List (String × Nat))) (inv : List (String × DataEntry))
    (out : List (String × Figure)) (hnd : (inv.map Prod.fst).Nodup)
    (hok : plot proj none lp bins inv = .ok out) :
    ∀ nv ∈ inv, nv.2.data.dims ≠ [] →
      (∃ fig, alGet out (groupKey proj none nv.1 nv.2) = some fig
        ∧ alGet fig.arrays nv.1 = some nv.2)
      ∧ (∀ kf ∈ out, (∃ e2, alGet kf.2.arrays nv.1 = some e2) →
          kf.1 = groupKey proj none nv.1 nv.2) := by
  obtain ⟨gs, hpg, hdg⟩ := plot_ok_inv proj none lp bins inv out hok
  obtain ⟨stf, hpe, hgs⟩ := plotGroups_ok_inv proj none lp inv gs hpg
  have hnd2 : ((sortByName inv).map Prod.fst).Nodup :=
    (((sortByName_perm inv).map Prod.fst).nodup_iff).mpr hnd
  have hInv := plotInv_run proj none lp (sortByName inv) []
    (PState.mk (-1) []) stf (by simpa using hnd2) (plotInv_init proj none lp)
    hpe
  rw [List.nil_append] at hInv
  obtain ⟨hlcf, hnamesf, hmemf⟩ := hInv
  obtain ⟨fwd, bwd⟩ := dispatchGroups_ok_forward proj bins gs out hdg
  intro nv hnv hdims
  have hnvs : nv ∈ sortByName inv := (sortByName_perm inv).mem_iff.mpr hnv
  obtain ⟨⟨g, hg1, hg2, _⟩, huniq⟩ := hmemf nv hnvs hdims
  rw [hgs] at hg1
  rw [hgs] at huniq
  constructor
  · obtain ⟨fig, hf1, hf2⟩ := fwd (groupKey proj none nv.1 nv.2) g hg1
    refine ⟨fig, hf1, ?_⟩
    rw [hf2]
    exact hg2
  · intro kf hkf hkfmem
    obtain ⟨g2, hg2mem, hg2arr⟩ := bwd kf hkf
    obtain ⟨e2, he2⟩ := hkfmem
    rw [hg2arr] at he2
    exact huniq (kf.1, g2) hg2mem ⟨e2, he2⟩

/-- C4, counterexample: with a custom axes list `["y"]`, a
1-dimensional entry with dims `["x"]` and unit `m` is keyed `"y.m"`,
not by its dot-joined dimension names `"x.m"` as the claim states. -/
theorem plot_groups_by_key_cex :
    plot none (some (.alist ["y"]))
        (LineParams.mk .noneP .noneP .noneP .noneP) none
        [("a", DataEntry.mk (VarData.mk ["x"] "m"))]
      = .ok [("y.m", Figure.oneD
          [("a", DataEntry.mk (VarData.mk ["x"] "m"))]
          (some (StyleMaps.mk [("a", .str "#1f77b4")] [("a", .str "o")]
            [("a", .str "none")] [("a", .rat (3 / 2))])))]
    ∧ alGet [(("y.m" : String), Figure.oneD
          [("a", DataEntry.mk (VarData.mk ["x"] "m"))]
          (some (StyleMaps.mk [("a", .str "#1f77b4")] [("a", .str "o")]
            [("a", .str "none")] [("a", .rat (3 / 2))])))]
        (String.intercalate "." ["x"] ++ "." ++ "m") = none :=
  ⟨rfl, rfl⟩

theorem plot_groups_by_key_witness :
    (∃ fig, alGet [(("a" : String), Figure.twoD
          [("a", DataEntry.mk (VarData.mk ["x", "y"] "m"))])]
        (groupKey none none "a" (DataEntry.mk (VarData.mk ["x", "y"] "m")))
        = some fig
      ∧ alGet fig.arrays "a" =
          some (DataEntry.mk (VarData.mk ["x", "y"] "m")))
    ∧ (∀ kf ∈ [(("a" : String), Figure.twoD
          [("a", DataEntry.mk (VarData.mk ["x", "y"] "m"))])],
        (∃ e2, alGet kf.2.arrays "a" = some e2) →
        kf.1 = groupKey none none "a"
          (DataEntry.mk (VarData.mk ["x", "y"] "m"))) :=
  plot_groups_by_key none (LineParams.mk .noneP .noneP .noneP .noneP) none
    [("a", DataEntry.mk (VarData.mk ["x", "y"] "m"))] _ (by decide) rfl
    ("a", DataEntry.mk (VarData.mk ["x", "y"] "m")) (by simp) (by simp)

end ScippPlot
